import Mathlib

/-!
# Verification of the tweet cache/deduplication manager

Shallow embedding of `tweet_cache_manager.py` (class `TweetCacheManager`):
per-entity JSON caches of tweets, merged with deduplication by an
md5 digest of `username:text:created_at`, sorted by `created_at`
descending, truncated to 100 items, together with a freshness policy
and an age-based cleanup sweep.

Python dictionaries representing tweets are modelled by the `Tweet`
structure (the three identity fields plus one passthrough engagement
count standing for the arbitrary extra metadata).  The per-user cache
files are modelled by `FileState`; the md5 digest is modelled by the
exact content string that the source feeds to md5 (md5 is a function
of that string, so two digests in the source agree whenever the
modelled hashes agree).  Wall-clock time and `datetime.fromisoformat`
are modelled by a `TimeModel`: an integer "now" (in seconds) and a
partial parsing function from strings to integer timestamps.
-/

/-- One cached item.  `username`, `text` and `created_at` are the three
identity fields used by `get_tweet_hash`; `likes` stands for the
passthrough engagement metadata carried through unchanged. -/
structure Tweet where
  username : String
  text : String
  created_at : String
  likes : Nat
deriving DecidableEq, Repr

/-- `get_tweet_hash` of the source computes
`hashlib.md5(f"{username}:{tweet_text}:{created_at}".encode()).hexdigest()`.
The md5 digest is modelled by the content string itself: md5 is a
deterministic function of the content, so equal contents always give
equal digests in the source (collisions of md5 on distinct contents are
not modelled). -/
def get_tweet_hash (username tweet_text created_at : String) : String :=
  username ++ ":" ++ tweet_text ++ ":" ++ created_at

/-- The dedup key of a tweet: `get_tweet_hash` applied to its
`username`, `text` and `created_at` fields (the source reads them with
`tweet.get(..., '')`; fields are total here). -/
def tweetHash (t : Tweet) : String :=
  get_tweet_hash t.username t.text t.created_at

/-- The contents of one `{username}_tweets.json` cache record:
the item list and the nullable `last_updated` timestamp string
(`total_tweets` is derived — always `len(tweets)` — and not modelled). -/
structure UserCache where
  tweets : List Tweet
  last_updated : Option String
deriving DecidableEq, Repr

/-- State of one per-user cache file on disk: missing, unreadable or
unparseable (any exception on open/read/`json.load`), or valid JSON. -/
inductive FileState where
  | missing
  | corrupt
  | valid (data : UserCache)
deriving DecidableEq, Repr

/-- A filesystem of per-user cache files: one `FileState` per username. -/
abbrev CacheFS : Type := String → FileState

/-- Reading one cache file, as `load_user_cache` does: a missing file
or any exception while opening/parsing degrades to the empty default
`{"tweets": [], "last_updated": None}`. -/
def load_state : FileState → UserCache
  | .missing => ⟨[], none⟩
  | .corrupt => ⟨[], none⟩
  | .valid data => data

/-- `load_user_cache`: read the per-user file; missing file or any
read/parse error yields the empty default, never an exception. -/
def load_user_cache (fs : CacheFS) (username : String) : UserCache :=
  load_state (fs username)

/-- `save_user_cache`: overwrite the user's file with the given tweets,
stamping `last_updated := now`.  An I/O error (`write_fails`) is caught
and logged; the Python function has no `return` statement, so it
returns `None` (modelled as `none`) on both the success and the failure
path.  Result: the new filesystem and the Python return value. -/
def save_user_cache (fs : CacheFS) (write_fails : Bool) (username : String)
    (now : String) (tweets_data : List Tweet) : CacheFS × Option Unit :=
  if write_fails then
    (fs, none)
  else
    (fun u => if u = username then .valid ⟨tweets_data, some now⟩ else fs u, none)

/-- The dedup loop of `merge_new_tweets`: walk the incoming batch with
the running set of seen hashes (`existing_hashes`, a Python set modelled
as a list with membership), the accumulated `merged_tweets` list and the
running `new_count`.  Returns the final seen set, merged list and count. -/
def addNewTweets (seen : List String) (merged : List Tweet) (count : Nat) :
    List Tweet → List String × List Tweet × Nat
  | [] => (seen, merged, count)
  | t :: ts =>
    let h := tweetHash t
    if h ∈ seen then addNewTweets seen merged count ts
    else addNewTweets (h :: seen) (merged ++ [t]) (count + 1) ts

/-- Python's `<=` on strings: lexicographic comparison of the code
point sequences (modelled on `String.data`). -/
def pyStrLeAux : List Char → List Char → Bool
  | [], _ => true
  | _ :: _, [] => false
  | a :: as, b :: bs => if a = b then pyStrLeAux as bs else decide (a < b)

/-- Python's `s1 <= s2` for strings. -/
def pyStrLe (a b : String) : Bool := pyStrLeAux a.data b.data

/-- The comparison `merge_new_tweets` sorts by:
`key=lambda x: x.get('created_at',''), reverse=True`, i.e. descending in
the raw `created_at` string (Python compares strings by code points).
Python's sort is stable, as is `List.insertionSort`, so the sorted
output is the same list a stable descending sort produces. -/
def tweetGE (a b : Tweet) : Prop := pyStrLe b.created_at a.created_at = true

instance : DecidableRel tweetGE := fun _ _ =>
  inferInstanceAs (Decidable (_ = true))

/-- The full merged collection of `merge_new_tweets` before the
`[:100]` truncation: existing tweets plus the genuinely new ones,
sorted by `created_at` descending (stable, like Python's `list.sort`). -/
def merge_candidates (existing_tweets new_tweets : List Tweet) : List Tweet :=
  let existing_hashes := existing_tweets.map tweetHash
  ((addNewTweets existing_hashes existing_tweets 0 new_tweets).2.1).insertionSort tweetGE

/-- The pure core of `merge_new_tweets`: merged-and-truncated tweet
list, and the number of genuinely new tweets. -/
def merge_tweets (existing_tweets new_tweets : List Tweet) : List Tweet × Nat :=
  let existing_hashes := existing_tweets.map tweetHash
  ((merge_candidates existing_tweets new_tweets).take 100,
    (addNewTweets existing_hashes existing_tweets 0 new_tweets).2.2)

/-- `merge_new_tweets`: load the user's cache, merge the batch
(dedup, sort descending, truncate to 100), save (which stamps
`last_updated := now`), and return the merged list with the new count.
`now` and `write_fails` are the ambient wall clock and I/O outcome. -/
def merge_new_tweets (fs : CacheFS) (write_fails : Bool) (now : String)
    (username : String) (new_tweets : List Tweet) :
    CacheFS × List Tweet × Nat :=
  let existing_tweets := (load_user_cache fs username).tweets
  let result := merge_tweets existing_tweets new_tweets
  let saved := save_user_cache fs write_fails username now result.1
  (saved.1, result.1, result.2)

/-- Wall-clock time and timestamp parsing, abstracted: `now` is the
current time in seconds and `fromisoformat` models Python's
`datetime.fromisoformat`, returning `none` where the library call would
raise `ValueError`. -/
structure TimeModel where
  now : Int
  fromisoformat : String → Option Int

/-- `needs_fresh_data`: `True` when never cached (`last_updated` absent
or empty — Python's `if not last_updated`), `True` when the stored
timestamp fails to parse (the bare `except`), otherwise the comparison
`last_update_time < datetime.now() - timedelta(hours=max_age_hours)`
(times in seconds, so the timedelta is `max_age_hours * 3600`). -/
def needs_fresh_data (tm : TimeModel) (fs : CacheFS) (username : String)
    (max_age_hours : Int) : Bool :=
  let cache_data := load_user_cache fs username
  match cache_data.last_updated with
  | none => true
  | some last_updated =>
    if last_updated = "" then true
    else
      match tm.fromisoformat last_updated with
      | none => true
      | some last_update_time =>
        decide (last_update_time < tm.now - max_age_hours * 3600)

/-- Python's `str.replace` (all leftmost non-overlapping occurrences),
modelled on code-point lists; the fuel argument (instantiated with the
string length) only makes the recursion structural. -/
def pyReplaceAux (pat rep : List Char) : Nat → List Char → List Char
  | _, [] => []
  | 0, s => s
  | fuel + 1, c :: rest =>
    if pat.isPrefixOf (c :: rest) && !pat.isEmpty then
      rep ++ pyReplaceAux pat rep fuel ((c :: rest).drop pat.length)
    else
      c :: pyReplaceAux pat rep fuel rest

/-- Python's `s.replace(pat, rep)`. -/
def pyReplace (s pat rep : String) : String :=
  ⟨pyReplaceAux pat.data rep.data s.data.length s.data⟩

/-- The timestamp preprocessing both read paths apply before parsing:
`.replace('Z', '+00:00').replace(' +0000', '+00:00')`. -/
def normalize_created_at (s : String) : String :=
  pyReplace (pyReplace s "Z" "+00:00") " +0000" "+00:00"

/-- The per-tweet age test shared by `get_cached_tweets_by_category`
and `cleanup_old_cache`: parse the normalized `created_at` and keep the
tweet iff `tweet_time > cutoff_time`; if parsing raises, keep the tweet
(the permissive `except` branch). -/
def tweet_is_fresh (tm : TimeModel) (cutoff_time : Int) (t : Tweet) : Bool :=
  match tm.fromisoformat (normalize_created_at t.created_at) with
  | some tweet_time => decide (tweet_time > cutoff_time)
  | none => true

/-- The `stats` record of `get_cached_tweets_by_category`. -/
structure CacheStats where
  total_cached : Nat
  total_categories : Nat
  cache_hits : Nat
deriving DecidableEq, Repr

/-- The inner loop of `get_cached_tweets_by_category` over one
category's usernames: concatenate `fresh_tweets[:20]` for each user
whose filtered list is non-empty, counting those users as cache hits. -/
def category_collect (tm : TimeModel) (cutoff_time : Int) (fs : CacheFS) :
    List String → List Tweet × Nat
  | [] => ([], 0)
  | username :: rest =>
    let user_tweets := (load_user_cache fs username).tweets
    let fresh_tweets := user_tweets.filter (tweet_is_fresh tm cutoff_time)
    let rest_result := category_collect tm cutoff_time fs rest
    if fresh_tweets.isEmpty then rest_result
    else (fresh_tweets.take 20 ++ rest_result.1, rest_result.2 + 1)

/-- The outer loop of `get_cached_tweets_by_category` over categories:
a category enters the result only when it contributed any tweets. -/
def categories_collect (tm : TimeModel) (cutoff_time : Int) (fs : CacheFS) :
    List (String × List String) → List (String × List Tweet) × CacheStats
  | [] => ([], ⟨0, 0, 0⟩)
  | (category, usernames) :: rest =>
    let collected := category_collect tm cutoff_time fs usernames
    let rest_result := categories_collect tm cutoff_time fs rest
    if collected.1.isEmpty then
      (rest_result.1,
        { rest_result.2 with cache_hits := rest_result.2.cache_hits + collected.2 })
    else
      ((category, collected.1) :: rest_result.1,
        ⟨rest_result.2.total_cached + collected.1.length,
          rest_result.2.total_categories + 1,
          rest_result.2.cache_hits + collected.2⟩)

/-- `get_cached_tweets_by_category`: a pure read/aggregate over the
cache files; `cutoff_time = now - timedelta(hours=max_age_hours)`. -/
def get_cached_tweets_by_category (tm : TimeModel) (fs : CacheFS)
    (accounts_by_category : List (String × List String)) (max_age_hours : Int) :
    List (String × List Tweet) × CacheStats :=
  categories_collect tm (tm.now - max_age_hours * 3600) fs accounts_by_category

/-- One entity's step of `cleanup_old_cache`: filter its tweets with
the shared age test and rewrite the file (stamping `last_updated`)
only when the filtered length differs from the original length. -/
def cleanup_user (tm : TimeModel) (cutoff_time : Int) (now : String) :
    String × FileState → String × FileState
  | (username, st) =>
    let tweets := (load_state st).tweets
    let fresh_tweets := tweets.filter (tweet_is_fresh tm cutoff_time)
    if fresh_tweets.length ≠ tweets.length then
      (username, .valid ⟨fresh_tweets, some now⟩)
    else (username, st)

/-- The sweep of `cleanup_old_cache` over the listed cache files,
accumulating the rewritten files, `cleaned_users` and `cleaned_tweets`.
Each rewrite goes through `save_user_cache` semantics (stamping
`last_updated := now`); successful writes are assumed, a write failure
would only be logged. -/
def cleanup_go (tm : TimeModel) (cutoff_time : Int) (now : String) :
    List (String × FileState) → List (String × FileState) × Nat × Nat
  | [] => ([], 0, 0)
  | (username, st) :: rest =>
    let tweets := (load_state st).tweets
    let fresh_tweets := tweets.filter (tweet_is_fresh tm cutoff_time)
    let rest_result := cleanup_go tm cutoff_time now rest
    if fresh_tweets.length ≠ tweets.length then
      ((username, .valid ⟨fresh_tweets, some now⟩) :: rest_result.1,
        rest_result.2.1 + 1, rest_result.2.2 + (tweets.length - fresh_tweets.length))
    else ((username, st) :: rest_result.1, rest_result.2.1, rest_result.2.2)

/-- `cleanup_old_cache`: sweep every cache file, dropping tweets older
than `max_age_days` (cutoff in seconds: `max_age_days * 86400`), and
count rewritten users and removed tweets.  The directory listing is
modelled as an association list of cache files. -/
def cleanup_old_cache (tm : TimeModel) (now : String) (max_age_days : Int)
    (files : List (String × FileState)) :
    List (String × FileState) × Nat × Nat :=
  cleanup_go tm (tm.now - max_age_days * 86400) now files

/-- The tweets of a batch that the dedup loop of `merge_new_tweets`
actually appends, given the starting seen-set `seen`: `addNewTweets` is
exactly "append `newFromBatch` and count it" (proved below). -/
def newFromBatch (seen : List String) : List Tweet → List Tweet
  | [] => []
  | t :: ts =>
    if tweetHash t ∈ seen then newFromBatch seen ts
    else t :: newFromBatch (tweetHash t :: seen) ts

/-- Repeated merges of batches, starting from the empty cache. -/
def mergeSeq (batches : List (List Tweet)) : List Tweet :=
  batches.foldl (fun acc b => (merge_tweets acc b).1) []

/-! ## Concrete inputs for example scenarios, witnesses and counterexamples -/

/-- Item A of the spec's `alice` example scenario. -/
def tweetA : Tweet := ⟨"alice", "post A", "2024-01-01T00:00:00", 1⟩

/-- Item B of the spec's `alice` example scenario. -/
def tweetB : Tweet := ⟨"alice", "post B", "2024-01-02T00:00:00", 2⟩

/-- Item C of the spec's `alice` example scenario. -/
def tweetC : Tweet := ⟨"alice", "post C", "2024-01-03T00:00:00", 3⟩

/-- Filler tweets for the capacity counterexamples: distinct hashes and
`created_at` keys `"d100" … "d198"`. -/
def fillerTweet (i : Nat) : Tweet :=
  ⟨"f" ++ toString i, "t", "d" ++ toString i, 0⟩

/-- A cached tweet whose dedup content string `"a:b:z:0"` can also be
produced by a different field split; its `created_at` `"0"` sorts last. -/
def oldHashCarrier : Tweet := ⟨"a", "b:z", "0", 0⟩

/-- A full cache of 100 tweets: 99 fillers (sorted descending) and
`oldHashCarrier` at the end. -/
def bigExisting : List Tweet :=
  ((List.range 99).map (fun i => fillerTweet (198 - i))) ++ [oldHashCarrier]

/-- A batch whose first tweet is genuinely new and whose second tweet
`⟨"a", "b", "z:0"⟩` hashes to the same content string `"a:b:z:0"` as
`oldHashCarrier` while carrying the newest `created_at` `"z:0"`. -/
def trickBatch : List Tweet :=
  [⟨"w", "w", "e", 0⟩, ⟨"a", "b", "z:0", 0⟩]

/-- A cache filesystem holding the full 100-tweet cache for `alice`. -/
def cexFS : CacheFS :=
  fun u => if u = "alice" then .valid ⟨bigExisting, some "2024"⟩ else .missing

/-- A concrete time model for the freshness witnesses: now = 10000 s,
and only the string `"TS"` parses (to 100 s). -/
def tmFresh : TimeModel :=
  ⟨10000, fun s => if s = "TS" then some 100 else none⟩

/-- A cache filesystem whose `alice` entry was stamped at `"TS"`. -/
def fsFresh : CacheFS :=
  fun u => if u = "alice" then .valid ⟨[], some "TS"⟩ else .missing

/-- A time model in which no timestamp parses (every `fromisoformat`
call raises). -/
def tmNone : TimeModel := ⟨0, fun _ => none⟩

/-- A cache file with a single tweet carrying an unparseable date. -/
def unparseableFile : FileState :=
  .valid ⟨[⟨"u", "x", "BAD", 0⟩], some "2024-01-01T00:00:00"⟩

/-!
## Theorems

First the order-theoretic facts about the sort comparison, then the
behaviour of the dedup loop, then the claims.
-/

theorem pyStrLeAux_total : ∀ as bs, pyStrLeAux as bs = true ∨ pyStrLeAux bs as = true
  | [], _ => Or.inl rfl
  | _ :: _, [] => Or.inr rfl
  | a :: as, b :: bs => by
    by_cases hab : a = b
    · subst hab
      simpa [pyStrLeAux] using pyStrLeAux_total as bs
    · rcases lt_or_gt_of_ne hab with h | h
      · exact Or.inl (by simp [pyStrLeAux, hab, h])
      · exact Or.inr (by simp [pyStrLeAux, Ne.symm hab, h])

theorem pyStrLeAux_trans :
    ∀ as bs cs, pyStrLeAux as bs = true → pyStrLeAux bs cs = true →
      pyStrLeAux as cs = true
  | [], _, _, _, _ => rfl
  | _ :: _, [], _, h1, _ => by simp [pyStrLeAux] at h1
  | _ :: _, _ :: _, [], _, h2 => by simp [pyStrLeAux] at h2
  | a :: as, b :: bs, c :: cs, h1, h2 => by
    by_cases hab : a = b <;> by_cases hbc : b = c
    · subst hab; subst hbc
      simp only [pyStrLeAux, if_pos rfl] at h1 h2 ⊢
      exact pyStrLeAux_trans as bs cs h1 h2
    · subst hab
      simpa [pyStrLeAux, hbc] using h2
    · subst hbc
      simpa [pyStrLeAux, hab] using h1
    · simp only [pyStrLeAux, if_neg hab, if_neg hbc, decide_eq_true_eq] at h1 h2
      have hac : a < c := lt_trans h1 h2
      simp [pyStrLeAux, ne_of_lt hac, hac]

instance : IsTotal Tweet tweetGE :=
  ⟨fun a b => pyStrLeAux_total b.created_at.data a.created_at.data⟩

instance : IsTrans Tweet tweetGE :=
  ⟨fun _ _ _ h1 h2 => pyStrLeAux_trans _ _ _ h2 h1⟩

theorem addNewTweets_eq_newFromBatch :
    ∀ (ts : List Tweet) (seen : List String) (merged : List Tweet) (count : Nat),
      (addNewTweets seen merged count ts).2.1 = merged ++ newFromBatch seen ts ∧
      (addNewTweets seen merged count ts).2.2 = count + (newFromBatch seen ts).length
  | [], seen, merged, count => by simp [addNewTweets, newFromBatch]
  | t :: ts, seen, merged, count => by
    by_cases h : tweetHash t ∈ seen
    · simpa [addNewTweets, newFromBatch, h] using
        addNewTweets_eq_newFromBatch ts seen merged count
    · have ih := addNewTweets_eq_newFromBatch ts (tweetHash t :: seen) (merged ++ [t]) (count + 1)
      simp only [addNewTweets, newFromBatch, if_neg h] at ih ⊢
      constructor
      · rw [ih.1]; simp
      · rw [ih.2]; simp [List.length_cons]; omega

theorem newFromBatch_skip (ts : List Tweet) (seen : List String)
    (h : ∀ t ∈ ts, tweetHash t ∈ seen) : newFromBatch seen ts = [] := by
  induction ts with
  | nil => rfl
  | cons t ts ih =>
    have ht : tweetHash t ∈ seen := h t (List.mem_cons_self t ts)
    simp only [newFromBatch, if_pos ht]
    exact ih fun x hx => h x (List.mem_cons_of_mem t hx)

theorem newFromBatch_covers :
    ∀ (ts : List Tweet) (seen : List String) (t : Tweet), t ∈ ts →
      tweetHash t ∈ seen ∨ tweetHash t ∈ (newFromBatch seen ts).map tweetHash
  | t' :: ts, seen, t, ht => by
    by_cases h : tweetHash t' ∈ seen
    · simp only [newFromBatch, if_pos h]
      rcases List.mem_cons.mp ht with rfl | hts
      · exact Or.inl h
      · exact newFromBatch_covers ts seen t hts
    · simp only [newFromBatch, if_neg h, List.map_cons]
      rcases List.mem_cons.mp ht with rfl | hts
      · exact Or.inr (List.mem_cons_self _ _)
      · rcases newFromBatch_covers ts (tweetHash t' :: seen) t hts with hmem | hmem
        · rcases List.mem_cons.mp hmem with heq | hseen
          · exact Or.inr (heq ▸ List.mem_cons_self _ _)
          · exact Or.inl hseen
        · exact Or.inr (List.mem_cons_of_mem _ hmem)

theorem newFromBatch_fresh :
    ∀ (ts : List Tweet) (seen : List String),
      (∀ x ∈ newFromBatch seen ts, tweetHash x ∉ seen) ∧
      (newFromBatch seen ts).Pairwise (fun a b => tweetHash a ≠ tweetHash b)
  | [], seen => by simp [newFromBatch]
  | t :: ts, seen => by
    by_cases h : tweetHash t ∈ seen
    · simpa [newFromBatch, h] using newFromBatch_fresh ts seen
    · have ih := newFromBatch_fresh ts (tweetHash t :: seen)
      simp only [newFromBatch, if_neg h]
      refine ⟨?_, ?_⟩
      · intro x hx
        rcases List.mem_cons.mp hx with rfl | hx'
        · exact h
        · exact fun hxs => (ih.1 x hx') (List.mem_cons_of_mem _ hxs)
      · refine List.pairwise_cons.mpr ⟨?_, ih.2⟩
        intro x hx heq
        exact (ih.1 x hx) (heq ▸ List.mem_cons_self _ _)

theorem newFromBatch_length_le :
    ∀ (ts : List Tweet) (seen : List String),
      (newFromBatch seen ts).length ≤ ts.length
  | [], _ => Nat.le_refl _
  | t :: ts, seen => by
    by_cases h : tweetHash t ∈ seen
    · simp only [newFromBatch, if_pos h, List.length_cons]
      exact Nat.le_succ_of_le (newFromBatch_length_le ts seen)
    · simp only [newFromBatch, if_neg h, List.length_cons]
      exact Nat.succ_le_succ (newFromBatch_length_le ts _)

theorem merge_candidates_eq (existing_tweets new_tweets : List Tweet) :
    merge_candidates existing_tweets new_tweets =
      (existing_tweets ++
          newFromBatch (existing_tweets.map tweetHash) new_tweets).insertionSort tweetGE := by
  simp only [merge_candidates]
  rw [(addNewTweets_eq_newFromBatch new_tweets (existing_tweets.map tweetHash)
    existing_tweets 0).1]

theorem merge_tweets_eq (existing_tweets new_tweets : List Tweet) :
    merge_tweets existing_tweets new_tweets =
      ((merge_candidates existing_tweets new_tweets).take 100,
        (newFromBatch (existing_tweets.map tweetHash) new_tweets).length) := by
  simp only [merge_tweets]
  rw [(addNewTweets_eq_newFromBatch new_tweets (existing_tweets.map tweetHash)
    existing_tweets 0).2, Nat.zero_add]

/-- The candidate collection is sorted descending by `created_at`. -/
theorem merge_candidates_sorted (existing_tweets new_tweets : List Tweet) :
    List.Sorted tweetGE (merge_candidates existing_tweets new_tweets) := by
  rw [merge_candidates_eq]
  exact List.sorted_insertionSort tweetGE _

/-- The candidate collection is a permutation of the existing tweets
plus the genuinely new ones. -/
theorem merge_candidates_perm (existing_tweets new_tweets : List Tweet) :
    List.Perm (merge_candidates existing_tweets new_tweets)
      (existing_tweets ++ newFromBatch (existing_tweets.map tweetHash) new_tweets) := by
  rw [merge_candidates_eq]
  exact List.perm_insertionSort tweetGE _

/-- **C3**.  Ordering after merge: the item collection stored (and
returned) by `merge_new_tweets` is sorted by `created_at` descending
(`tweetGE`, newest first); and for cached items A, B, merging the batch
[B, C] yields stored order [C, B, A] with `new_count = 1`. -/
theorem merge_result_sorted_desc :
    (∀ existing_tweets new_tweets : List Tweet,
        List.Sorted tweetGE (merge_tweets existing_tweets new_tweets).1) ∧
      merge_tweets [tweetB, tweetA] [tweetB, tweetC] = ([tweetC, tweetB, tweetA], 1) := by
  constructor
  · intro existing_tweets new_tweets
    rw [merge_tweets_eq]
    exact List.Pairwise.sublist (List.take_sublist _ _)
      (merge_candidates_sorted existing_tweets new_tweets)
  · decide

/-- **C2**.  Capacity invariant: any sequence of merges starting from
the empty cache leaves at most 100 stored items, and whenever the merge
truncates, every item it drops is no newer (by the raw `created_at`
ordering) than every item it keeps. -/
theorem merge_capacity_bound :
    (∀ batches : List (List Tweet), (mergeSeq batches).length ≤ 100) ∧
      ∀ existing_tweets new_tweets : List Tweet,
        ∀ x ∈ (merge_tweets existing_tweets new_tweets).1,
          ∀ y ∈ merge_candidates existing_tweets new_tweets,
            y ∉ (merge_tweets existing_tweets new_tweets).1 → tweetGE x y := by
  constructor
  · have aux : ∀ (batches : List (List Tweet)) (acc : List Tweet), acc.length ≤ 100 →
        (batches.foldl (fun acc b => (merge_tweets acc b).1) acc).length ≤ 100 := by
      intro batches
      induction batches with
      | nil => intro acc h; simpa using h
      | cons b bs ih =>
        intro acc _
        refine ih _ ?_
        show (merge_tweets acc b).1.length ≤ 100
        rw [merge_tweets_eq]
        simp [List.length_take]
    intro batches
    exact aux batches [] (by simp)
  · intro existing_tweets new_tweets x hx y hy hyn
    rw [merge_tweets_eq] at hx hyn
    have hsorted := merge_candidates_sorted existing_tweets new_tweets
    set L := merge_candidates existing_tweets new_tweets with hL
    have hsplit : L.take 100 ++ L.drop 100 = L := List.take_append_drop 100 L
    have hpw : List.Pairwise tweetGE (L.take 100 ++ L.drop 100) := by
      rw [hsplit]; exact hsorted
    have hcross := (List.pairwise_append.mp hpw).2.2
    have hydrop : y ∈ L.drop 100 := by
      rcases List.mem_append.mp (by rw [hsplit]; exact hy) with h | h
      · exact absurd h hyn
      · exact h
    exact hcross x hx y hydrop

/-- **C5**.  Intra-batch deduplication: provided the stored tweets have
pairwise-distinct dedup hashes (as any state produced by merges from the
empty cache does), the merged result again has pairwise-distinct dedup
hashes — in particular a batch containing two items with the same
(`username`, `text`, `created_at`) contributes only one stored copy —
and `new_count` is exactly the number of batch items the loop appended
(`newFromBatch`). -/
theorem merge_intra_batch_dedup (existing_tweets new_tweets : List Tweet)
    (h : existing_tweets.Pairwise (fun a b => tweetHash a ≠ tweetHash b)) :
    (merge_tweets existing_tweets new_tweets).1.Pairwise
        (fun a b => tweetHash a ≠ tweetHash b) ∧
      (merge_tweets existing_tweets new_tweets).2 =
        (newFromBatch (existing_tweets.map tweetHash) new_tweets).length := by
  constructor
  · rw [merge_tweets_eq]
    refine List.Pairwise.sublist (List.take_sublist _ _) ?_
    have hperm := merge_candidates_perm existing_tweets new_tweets
    refine (List.Perm.pairwise_iff (fun hxy => Ne.symm hxy) hperm).mpr ?_
    refine List.pairwise_append.mpr ⟨h, (newFromBatch_fresh new_tweets _).2, ?_⟩
    intro a ha b hb heq
    exact (newFromBatch_fresh new_tweets _).1 b hb
      (heq ▸ List.mem_map_of_mem tweetHash ha)
  · rw [merge_tweets_eq]

/-- Witness for C5: merging, into the empty cache, a batch holding two
copies of the same (`username`, `text`, `created_at`) triple (with
different engagement counts) stores only the first copy and counts one
new tweet. -/
theorem merge_intra_batch_dedup_witness :
    (merge_tweets [] [⟨"bob", "hi", "2024-05-05", 5⟩, ⟨"bob", "hi", "2024-05-05", 7⟩]).1.Pairwise
        (fun a b => tweetHash a ≠ tweetHash b) ∧
      merge_tweets [] [⟨"bob", "hi", "2024-05-05", 5⟩, ⟨"bob", "hi", "2024-05-05", 7⟩]
        = ([⟨"bob", "hi", "2024-05-05", 5⟩], 1) :=
  ⟨(merge_intra_batch_dedup [] [⟨"bob", "hi", "2024-05-05", 5⟩, ⟨"bob", "hi", "2024-05-05", 7⟩]
      List.Pairwise.nil).1, by decide⟩

/-- Value-level idempotence of the merge, when the existing cache and
the batch together cannot exceed the 100-item cap (so the `[:100]`
truncation drops nothing): re-merging the same batch appends nothing
and leaves the collection unchanged. -/
theorem merge_tweets_idem (existing_tweets new_tweets : List Tweet)
    (h : existing_tweets.length + new_tweets.length ≤ 100) :
    merge_tweets (merge_tweets existing_tweets new_tweets).1 new_tweets =
      ((merge_tweets existing_tweets new_tweets).1, 0) := by
  have hlen : (merge_candidates existing_tweets new_tweets).length ≤ 100 := by
    rw [(merge_candidates_perm existing_tweets new_tweets).length_eq, List.length_append]
    have := newFromBatch_length_le new_tweets (existing_tweets.map tweetHash)
    omega
  have hS1 : (merge_tweets existing_tweets new_tweets).1 =
      merge_candidates existing_tweets new_tweets := by
    rw [merge_tweets_eq]
    exact List.take_of_length_le hlen
  set S := merge_candidates existing_tweets new_tweets with hS
  have hskip : newFromBatch (S.map tweetHash) new_tweets = [] := by
    refine newFromBatch_skip new_tweets (S.map tweetHash) ?_
    intro t ht
    have hmem : tweetHash t ∈ (existing_tweets ++
        newFromBatch (existing_tweets.map tweetHash) new_tweets).map tweetHash := by
      rcases newFromBatch_covers new_tweets (existing_tweets.map tweetHash) t ht with h1 | h1
      · rw [List.map_append]; exact List.mem_append_left _ h1
      · rw [List.map_append]; exact List.mem_append_right _ h1
    exact (((merge_candidates_perm existing_tweets new_tweets).map tweetHash).mem_iff).mpr hmem
  have hcand : merge_candidates S new_tweets = S := by
    rw [merge_candidates_eq, hskip, List.append_nil]
    exact (merge_candidates_sorted existing_tweets new_tweets).insertionSort_eq
  rw [hS1, merge_tweets_eq, hskip, hcand, List.take_of_length_le hlen, List.length_nil]

/-- After a successful `merge_new_tweets`, the stored record for the
user is exactly the merged collection with `last_updated` stamped. -/
theorem load_after_merge_new_tweets (fs : CacheFS) (now username : String)
    (new_tweets : List Tweet) :
    load_user_cache (merge_new_tweets fs false now username new_tweets).1 username =
      ⟨(merge_tweets (load_user_cache fs username).tweets new_tweets).1, some now⟩ := by
  simp [merge_new_tweets, save_user_cache, load_user_cache, load_state]

/-- **C1** (amended).  Idempotent merge, provided the existing cache
plus the batch fit inside the 100-item cap (so the truncation in the
first merge cannot drop any batch item): the second `merge_new_tweets`
with the same batch reports `new_count = 0` and leaves the stored
collection unchanged, only `last_updated` advancing.  (Without that
proviso the claim fails: see the counterexample.) -/
theorem merge_new_tweets_idempotent (fs : CacheFS) (username : String)
    (new_tweets : List Tweet) (now1 now2 : String)
    (h : (load_user_cache fs username).tweets.length + new_tweets.length ≤ 100) :
    (merge_new_tweets (merge_new_tweets fs false now1 username new_tweets).1
        false now2 username new_tweets).2.2 = 0 ∧
      (load_user_cache (merge_new_tweets (merge_new_tweets fs false now1 username
          new_tweets).1 false now2 username new_tweets).1 username).tweets =
        (load_user_cache (merge_new_tweets fs false now1 username new_tweets).1
          username).tweets ∧
      (load_user_cache (merge_new_tweets fs false now1 username new_tweets).1
          username).last_updated = some now1 ∧
      (load_user_cache (merge_new_tweets (merge_new_tweets fs false now1 username
          new_tweets).1 false now2 username new_tweets).1 username).last_updated = some now2 := by
  have hidem := merge_tweets_idem (load_user_cache fs username).tweets new_tweets h
  have hload1 := load_after_merge_new_tweets fs now1 username new_tweets
  have hload2 := load_after_merge_new_tweets
    (merge_new_tweets fs false now1 username new_tweets).1 now2 username new_tweets
  rw [hload1] at hload2
  have hmerge2 : merge_tweets
      (load_user_cache (merge_new_tweets fs false now1 username new_tweets).1
        username).tweets new_tweets =
      ((merge_tweets (load_user_cache fs username).tweets new_tweets).1, 0) := by
    rw [hload1]; exact hidem
  refine ⟨?_, ?_, ?_, ?_⟩
  · show (merge_tweets
      (load_user_cache (merge_new_tweets fs false now1 username new_tweets).1
        username).tweets new_tweets).2 = 0
    rw [hmerge2]
  · rw [hload1, hload2]
    show (merge_tweets (merge_tweets (load_user_cache fs username).tweets new_tweets).1
      new_tweets).1 = _
    rw [hidem]
  · rw [hload1]
  · rw [hload2]

/-- Witness for the amended C1 at a small concrete input. -/
theorem merge_new_tweets_idempotent_witness :
    (merge_new_tweets (merge_new_tweets (fun _ => FileState.missing) false "t1" "alice"
        [tweetA]).1 false "t2" "alice" [tweetA]).2.2 = 0 :=
  (merge_new_tweets_idempotent (fun _ => FileState.missing) "alice" [tweetA] "t1" "t2"
    (by decide)).1

set_option maxRecDepth 20000 in
/-- Counterexample to **C1** as stated: with a full 100-item cache,
the first merge appends the new tweet `⟨"w","w","e"⟩` and truncation
evicts `oldHashCarrier` — taking the hash `"a:b:z:0"` out of the stored
set.  Re-merging the very same batch then appends `⟨"a","b","z:0"⟩`
(same hash, different fields, newest timestamp): the second call
returns `new_count = 1`, not 0, and the stored collection changes. -/
theorem merge_idempotent_cex :
    (merge_new_tweets (merge_new_tweets cexFS false "t1" "alice" trickBatch).1
        false "t2" "alice" trickBatch).2.2 = 1 ∧
      (load_user_cache (merge_new_tweets (merge_new_tweets cexFS false "t1" "alice"
          trickBatch).1 false "t2" "alice" trickBatch).1 "alice").tweets ≠
        (load_user_cache (merge_new_tweets cexFS false "t1" "alice" trickBatch).1
          "alice").tweets := by
  decide

/-- Witness for the eviction half of C2: in the first merge of the C1
counterexample, the kept tweet `⟨"w","w","e"⟩` is at least as new as the
evicted `oldHashCarrier`. -/
theorem merge_capacity_bound_witness :
    tweetGE ⟨"w", "w", "e", 0⟩ oldHashCarrier :=
  merge_capacity_bound.2 bigExisting trickBatch ⟨"w", "w", "e", 0⟩ (by decide)
    oldHashCarrier (by decide) (by decide)

/-- **C4** (amended).  Identity of the dedup key: items agreeing on all
of (`username`, `text`, `created_at`) always get the same dedup key —
and are therefore always treated as duplicates by the merge — but the
converse fails, because `get_tweet_hash` joins the fields with `":"`
without escaping, so distinct tuples whose colon-joined content strings
coincide share a key (see the counterexample). -/
theorem get_tweet_hash_identity (t1 t2 : Tweet)
    (hu : t1.username = t2.username) (ht : t1.text = t2.text)
    (hc : t1.created_at = t2.created_at) :
    tweetHash t1 = tweetHash t2 ∧
      ∀ existing_tweets : List Tweet, t2 ∈ existing_tweets →
        (merge_tweets existing_tweets [t1]).2 = 0 := by
  have hh : tweetHash t1 = tweetHash t2 := by
    simp [tweetHash, get_tweet_hash, hu, ht, hc]
  refine ⟨hh, ?_⟩
  intro existing_tweets hmem
  rw [merge_tweets_eq]
  have hskip : newFromBatch (existing_tweets.map tweetHash) [t1] = [] := by
    refine newFromBatch_skip _ _ ?_
    intro t htm
    rcases List.mem_singleton.mp htm with rfl
    exact hh ▸ List.mem_map_of_mem tweetHash hmem
  rw [hskip]
  rfl

/-- Witness for the amended C4: two items equal on the three identity
fields but with different engagement counts share a dedup key, and
merging one over the other adds nothing. -/
theorem get_tweet_hash_identity_witness :
    tweetHash ⟨"bob", "hi", "2024-05-05", 1⟩ = tweetHash ⟨"bob", "hi", "2024-05-05", 9⟩ ∧
      (merge_tweets [⟨"bob", "hi", "2024-05-05", 9⟩] [⟨"bob", "hi", "2024-05-05", 1⟩]).2 = 0 := by
  have h := get_tweet_hash_identity ⟨"bob", "hi", "2024-05-05", 1⟩
    ⟨"bob", "hi", "2024-05-05", 9⟩ rfl rfl rfl
  exact ⟨h.1, h.2 [⟨"bob", "hi", "2024-05-05", 9⟩] (List.mem_singleton.mpr rfl)⟩

/-- Counterexample to **C4** as stated: the tuples (`"a:b"`, `"c"`,
`"d"`) and (`"a"`, `"b:c"`, `"d"`) differ in every field except
`created_at`, yet both join to the content string `"a:b:c:d"`, so their
dedup keys are equal and the merge treats the second as a duplicate of
the first. -/
theorem get_tweet_hash_identity_cex :
    tweetHash ⟨"a:b", "c", "d", 0⟩ = tweetHash ⟨"a", "b:c", "d", 0⟩ ∧
      (Tweet.username ⟨"a:b", "c", "d", 0⟩ ≠ Tweet.username ⟨"a", "b:c", "d", 0⟩) ∧
      merge_tweets [⟨"a:b", "c", "d", 0⟩] [⟨"a", "b:c", "d", 0⟩] =
        ([⟨"a:b", "c", "d", 0⟩], 0) := by
  decide

/-- **C6**.  Freshness policy of `needs_fresh_data`: `true` when the
stored `last_updated` is absent; when it is present and parseable,
`true` exactly when the elapsed time exceeds `max_age_hours`; and
`true` when parsing the stored timestamp fails.  The hypothesis states
the one fact about the real parser the embedding needs: the empty
string (falsy in Python, short-circuited before parsing) does not
parse. -/
theorem needs_fresh_data_spec (tm : TimeModel) (fs : CacheFS) (username : String)
    (max_age_hours : Int) (hempty : tm.fromisoformat "" = none) :
    ((load_user_cache fs username).last_updated = none →
        needs_fresh_data tm fs username max_age_hours = true) ∧
      (∀ lu t, (load_user_cache fs username).last_updated = some lu →
        tm.fromisoformat lu = some t →
        (needs_fresh_data tm fs username max_age_hours = true ↔
          tm.now - t > max_age_hours * 3600)) ∧
      (∀ lu, (load_user_cache fs username).last_updated = some lu →
        tm.fromisoformat lu = none →
        needs_fresh_data tm fs username max_age_hours = true) := by
  refine ⟨?_, ?_, ?_⟩
  · intro h
    simp [needs_fresh_data, h]
  · intro lu t hlu hparse
    by_cases hblank : lu = ""
    · rw [hblank] at hparse
      rw [hempty] at hparse
      exact absurd hparse (by simp)
    · simp only [needs_fresh_data, hlu, if_neg hblank, hparse, decide_eq_true_eq]
      omega
  · intro lu hlu hparse
    by_cases hblank : lu = "" <;> simp [needs_fresh_data, hlu, hblank, hparse]

/-- Witness for C6: data stamped 9900 s ago is stale for a 1-hour
window. -/
theorem needs_fresh_data_spec_witness :
    needs_fresh_data tmFresh fsFresh "alice" 1 = true :=
  ((needs_fresh_data_spec tmFresh fsFresh "alice" 1 (by decide)).2.1 "TS" 100
    (by decide) (by decide)).mpr (by decide)

/-- **C7**.  `load_user_cache` never fails: a missing file and any
read/parse error both yield the same empty default
`{"tweets": [], "last_updated": None}`; by its total type the function
never propagates an exception. -/
theorem load_user_cache_total (fs : CacheFS) (username : String)
    (h : fs username = FileState.missing ∨ fs username = FileState.corrupt) :
    load_user_cache fs username = ⟨[], none⟩ := by
  rcases h with h | h <;> simp [load_user_cache, h, load_state]

/-- Witness for C7 at a concrete missing file. -/
theorem load_user_cache_total_witness :
    load_user_cache (fun _ => FileState.missing) "bob" = ⟨[], none⟩ :=
  load_user_cache_total (fun _ => FileState.missing) "bob" (Or.inl rfl)

/-- **C8** (amended).  `save_user_cache` never raises — an I/O error is
caught and logged — but it returns Python's `None` on the failure path
and on the success path alike, so the caller cannot detect a write
failure from the return value. -/
theorem save_user_cache_returns_none (fs : CacheFS) (write_fails : Bool)
    (username now : String) (tweets_data : List Tweet) :
    (save_user_cache fs write_fails username now tweets_data).2 = none := by
  cases write_fails <;> rfl

/-- Counterexample to **C8** as stated: at a concrete input, the return
value of a successful save equals the return value of a failed save
(both are `None`), so a successful save is not distinguishable from a
failed one by its return value. -/
theorem save_user_cache_cex :
    (save_user_cache (fun _ => FileState.missing) false "bob" "t" []).2 =
      (save_user_cache (fun _ => FileState.missing) true "bob" "t" []).2 := rfl

/-- One category's tweets are the concatenation, over its users in
order, of the first 20 age-filtered cached tweets of each user. -/
theorem category_collect_eq (tm : TimeModel) (cutoff_time : Int) (fs : CacheFS)
    (usernames : List String) :
    (category_collect tm cutoff_time fs usernames).1 =
      usernames.flatMap (fun u =>
        (((load_user_cache fs u).tweets).filter (tweet_is_fresh tm cutoff_time)).take 20) := by
  induction usernames with
  | nil => rfl
  | cons u us ih =>
    simp only [category_collect, List.flatMap_cons]
    by_cases hemp :
        (((load_user_cache fs u).tweets).filter (tweet_is_fresh tm cutoff_time)).isEmpty = true
    · have hnil : ((load_user_cache fs u).tweets).filter (tweet_is_fresh tm cutoff_time) = [] := by
        simpa using hemp
      rw [if_pos hemp, ih, hnil]
      simp
    · rw [if_neg hemp]
      simp only [List.cons_append]
      rw [ih]

/-- **C9**.  `get_cached_tweets_by_category` is a pure read/aggregate
(the model touches no file state): its result maps every category to
the concatenation, per user, of the first 20 cached tweets that pass
the age filter, keeping only categories with a non-empty contribution;
and a tweet whose `created_at` fails to parse passes the filter
(included, not excluded). -/
theorem get_cached_tweets_by_category_spec (tm : TimeModel) (fs : CacheFS)
    (accounts_by_category : List (String × List String)) (max_age_hours : Int) :
    (get_cached_tweets_by_category tm fs accounts_by_category max_age_hours).1 =
        (accounts_by_category.map (fun p => (p.1, p.2.flatMap (fun u =>
            (((load_user_cache fs u).tweets).filter
              (tweet_is_fresh tm (tm.now - max_age_hours * 3600))).take 20)))).filter
          (fun p => !p.2.isEmpty) ∧
      ∀ t : Tweet, tm.fromisoformat (normalize_created_at t.created_at) = none →
        tweet_is_fresh tm (tm.now - max_age_hours * 3600) t = true := by
  constructor
  · show (categories_collect tm (tm.now - max_age_hours * 3600) fs accounts_by_category).1 = _
    induction accounts_by_category with
    | nil => rfl
    | cons p rest ih =>
      obtain ⟨cat, us⟩ := p
      have hcc := category_collect_eq tm (tm.now - max_age_hours * 3600) fs us
      simp only [categories_collect, List.map_cons, List.filter_cons]
      by_cases hemp : (category_collect tm (tm.now - max_age_hours * 3600) fs us).1.isEmpty = true
      · rw [if_pos hemp]
        have hflat : (us.flatMap (fun u =>
            (((load_user_cache fs u).tweets).filter
              (tweet_is_fresh tm (tm.now - max_age_hours * 3600))).take 20)).isEmpty = true := by
          rw [← hcc]; exact hemp
        simp only [hflat, Bool.not_true, if_neg (by simp : ¬ (false = true))]
        exact ih
      · rw [if_neg hemp]
        have hflat : (us.flatMap (fun u =>
            (((load_user_cache fs u).tweets).filter
              (tweet_is_fresh tm (tm.now - max_age_hours * 3600))).take 20)).isEmpty = false := by
          rw [← hcc]; simpa using hemp
        simp only [hflat, Bool.not_false]
        rw [if_pos trivial, hcc, ih]
  · intro t hparse
    simp [tweet_is_fresh, hparse]

/-- Witness for C9: with an unparseable `created_at`, the age filter
keeps the tweet. -/
theorem get_cached_tweets_by_category_spec_witness :
    tweet_is_fresh tmNone (tmNone.now - 24 * 3600) ⟨"u", "x", "not-a-date", 0⟩ = true :=
  (get_cached_tweets_by_category_spec tmNone (fun _ => FileState.missing) [] 24).2
    ⟨"u", "x", "not-a-date", 0⟩ rfl

/-- **C10**.  Cleanup is a no-op for unchanged entities and never drops
unparseable items: the sweep rewrites each file independently
(`cleanup_user`); an entity all of whose tweets pass the age test keeps
its stored state (including `last_updated`) bit-for-bit; a tweet whose
`created_at` does not parse is always retained; and an entity is
rewritten only when at least one tweet failed the age test (was
removed). -/
theorem cleanup_old_cache_spec (tm : TimeModel) (now : String) (max_age_days : Int)
    (files : List (String × FileState)) :
    (cleanup_old_cache tm now max_age_days files).1 =
        files.map (cleanup_user tm (tm.now - max_age_days * 86400) now) ∧
      (∀ username st,
        (∀ t ∈ (load_state st).tweets,
            tweet_is_fresh tm (tm.now - max_age_days * 86400) t = true) →
        cleanup_user tm (tm.now - max_age_days * 86400) now (username, st) = (username, st)) ∧
      (∀ username st (t : Tweet), t ∈ (load_state st).tweets →
        tm.fromisoformat (normalize_created_at t.created_at) = none →
        t ∈ (load_state (cleanup_user tm (tm.now - max_age_days * 86400) now
          (username, st)).2).tweets) ∧
      (∀ username st,
        cleanup_user tm (tm.now - max_age_days * 86400) now (username, st) ≠ (username, st) →
        ∃ t ∈ (load_state st).tweets,
          tweet_is_fresh tm (tm.now - max_age_days * 86400) t = false) := by
  set cutoff := tm.now - max_age_days * 86400 with hcut
  have hnoop : ∀ username st,
      (∀ t ∈ (load_state st).tweets, tweet_is_fresh tm cutoff t = true) →
      cleanup_user tm cutoff now (username, st) = (username, st) := by
    intro username st hall
    have hfil : (load_state st).tweets.filter (tweet_is_fresh tm cutoff) =
        (load_state st).tweets := List.filter_eq_self.mpr hall
    simp [cleanup_user, hfil]
  refine ⟨?_, hnoop, ?_, ?_⟩
  · show (cleanup_go tm cutoff now files).1 = _
    induction files with
    | nil => rfl
    | cons p rest ih =>
      obtain ⟨username, st⟩ := p
      simp only [cleanup_go, List.map_cons]
      by_cases hch : ((load_state st).tweets.filter (tweet_is_fresh tm cutoff)).length ≠
          (load_state st).tweets.length
      · rw [if_pos hch, ih]
        simp only [cleanup_user]
        rw [if_pos hch]
      · rw [if_neg hch, ih]
        simp only [cleanup_user]
        rw [if_neg hch]
  · intro username st t hmem hparse
    have hkeep : tweet_is_fresh tm cutoff t = true := by
      simp [tweet_is_fresh, hparse]
    simp only [cleanup_user]
    by_cases hch : ((load_state st).tweets.filter (tweet_is_fresh tm cutoff)).length ≠
        (load_state st).tweets.length
    · rw [if_pos hch]
      exact List.mem_filter.mpr ⟨hmem, hkeep⟩
    · rw [if_neg hch]
      exact hmem
  · intro username st hne
    by_contra hnone
    push_neg at hnone
    refine hne (hnoop username st ?_)
    intro t hmem
    have := hnone t hmem
    simpa using this

/-- Witness for C10: with no parseable dates, the entity's file is left
untouched and the unparseable tweet is retained. -/
theorem cleanup_old_cache_spec_witness :
    cleanup_user tmNone (tmNone.now - 7 * 86400) "now2" ("u", unparseableFile) =
        ("u", unparseableFile) ∧
      (⟨"u", "x", "BAD", 0⟩ : Tweet) ∈
        (load_state (cleanup_user tmNone (tmNone.now - 7 * 86400) "now2"
          ("u", unparseableFile)).2).tweets := by
  have h := cleanup_old_cache_spec tmNone "now2" 7 [("u", unparseableFile)]
  exact ⟨h.2.1 "u" unparseableFile (by decide),
    h.2.2.1 "u" unparseableFile ⟨"u", "x", "BAD", 0⟩ (by decide) rfl⟩
